import Mathlib

/-!
Shallow embedding of `CSILSPGenerator.py`: three generators of feasible
CSILSP instances (base, customer-specific time windows, non-customer-specific
time windows).  The process-wide random source is modelled as a stream of raw
natural-number draws; `randint` consumes one draw and returns an integer that
ranges exactly over the inclusive interval `[a, b]` when `a ≤ b`.
-/

/-- Model of the process-wide random source (the `random` module state):
a stream of raw natural draws together with the current position. -/
structure RNG where
  stream : Nat → Nat
  idx : Nat

/-- Model of `rd.randint(a, b)`: consumes one raw draw `n` and returns
`a + (n % (b - a + 1))`, which for `a ≤ b` ranges exactly over `[a, b]`. -/
def randint (a b : Int) (r : RNG) : Int × RNG :=
  (a + ((r.stream r.idx % (b - a + 1).toNat : Nat) : Int), RNG.mk r.stream (r.idx + 1))

/-- `{ i : rd.randint(a, b) for i in range(n) }` as a list indexed by `i`,
drawing in increasing index order. -/
def sampleList (a b : Int) : Nat → RNG → List Int × RNG
  | 0, r => ([], r)
  | n + 1, r =>
    let v := randint a b r
    let rest := sampleList a b n v.2
    (v.1 :: rest.1, rest.2)

/-- Dataset produced by the base generator (`h, p, s, d, C`). -/
structure Dataset where
  h : List Int
  p : List Int
  s : List Int
  d : List Int
  C : List Int
deriving DecidableEq

/-- The raw samples of one base `generate` call, before capacity repair. -/
structure RawBase where
  h : List Int
  p : List Int
  s : List Int
  d : List Int
  C0 : List Int

/-- One iteration of the base repair body:
`if C[k] < d[k]: C[k] += d[k]`. -/
def repairStep (d C : List Int) (k : Nat) : List Int :=
  if C.getD k 0 < d.getD k 0 then C.set k (C.getD k 0 + d.getD k 0) else C

/-- The base repair double loop:
`for t in range(T): for k in range(t+1): if C[k] < d[k]: C[k] += d[k]`. -/
def repair (d C : List Int) (T : Nat) : List Int :=
  (List.range T).foldl
    (fun acc t => (List.range (t + 1)).foldl (fun acc2 k => repairStep d acc2 k) acc) C

/-- Restatement from the specification (§4.1 note): a single pass over
`k in 0..T-1` applying `if C[k] < d[k]: C[k] += d[k]` once per period.
This is the refinement target the spec claims the double loop equals. -/
def singlePassRepair (d C : List Int) (T : Nat) : List Int :=
  (List.range T).foldl (fun acc k => repairStep d acc k) C

/-- The flattened index sequence visited by the base repair double loop. -/
def baseSeq (T : Nat) : List Nat :=
  (List.range T).flatMap (fun t => List.range (t + 1))

namespace Generator

/-- The sampling stage of `Generator.generate(a, b)`; draws `h, p, s, d, C`
in that order, each a `T`-element dict comprehension. -/
def sampleRaw (T : Nat) (a b : Int) (r : RNG) : RawBase × RNG :=
  let hs := sampleList a b T r
  let ps := sampleList a b T hs.2
  let ss := sampleList a b T ps.2
  let ds := sampleList a b T ss.2
  let Cs := sampleList a b T ds.2
  (RawBase.mk hs.1 ps.1 ss.1 ds.1 Cs.1, Cs.2)

/-- `Generator.generate(a, b)` (defaults in the source: `a = 1`, `b = 6`):
sample all parameters, then run the repair double loop on `C`. -/
def generate (T : Nat) (a b : Int) (r : RNG) : Dataset × RNG :=
  let rs := sampleRaw T a b r
  (Dataset.mk rs.1.h rs.1.p rs.1.s rs.1.d (repair rs.1.d rs.1.C0 T), rs.2)

/-- `Generator.seed(a)`: reseeds the shared random source only when `a` is
truthy (`None` and `0` are no-ops).  `seedFn` models how `rd.seed`
deterministically rebuilds the stream from a truthy seed value. -/
def seed (seedFn : Int → Nat → Nat) (a : Option Int) (r : RNG) : RNG :=
  match a with
  | none => r
  | some v => if v = 0 then r else RNG.mk (seedFn v) 0

end Generator

/-- Dataset produced by the time-window generators (adds `d_w`). -/
structure DatasetTW where
  h : List Int
  p : List Int
  s : List Int
  d : List Int
  C : List Int
  d_w : Nat × Nat → Int

/-- The raw samples of one time-window `generate` call: `h, p, s`, the
window-demand dict `dw`, and the capacity list `C0`, drawn in that order
(the NCS pruning consumes no draws, so both variants share this stage). -/
structure RawTW where
  h : List Int
  p : List Int
  s : List Int
  dw : Nat × Nat → Int
  C0 : List Int

/-- Key list of the dict comprehension
`{ (i,j): ... for i in range(T) for j in range(i, T) }` in insertion order. -/
def windowKeys (T : Nat) : List (Nat × Nat) :=
  (List.range T).flatMap (fun i => (List.range' i (T - i)).map (fun j => (i, j)))

/-- `{ (i,j): (rd.randint(dw_a, dw_b) if i != j else 0) for ... }` over a key
list: a draw is consumed only for off-diagonal keys; keys outside the list
map to `0` (they are absent from the dict and never read by the program). -/
def sampleDW (dw_a dw_b : Int) : List (Nat × Nat) → RNG → ((Nat × Nat → Int) × RNG)
  | [], r => (fun _ => 0, r)
  | q :: rest, r =>
    if q.1 = q.2 then
      let res := sampleDW dw_a dw_b rest r
      (fun x => if x = q then 0 else res.1 x, res.2)
    else
      let v := randint dw_a dw_b r
      let res := sampleDW dw_a dw_b rest v.2
      (fun x => if x = q then v.1 else res.1 x, res.2)

/-- `quicksum(C[k] for k in range(t1, t2+1))`. -/
def intervalSumC (C : List Int) (t1 t2 : Nat) : Int :=
  ((List.range' t1 (t2 + 1 - t1)).map (fun k => C.getD k 0)).sum

/-- `quicksum(d_w[k,l] for k in range(t1, t2+1) for l in range(k, t2+1))`. -/
def sumWin (w : Nat × Nat → Int) (t1 t2 : Nat) : Int :=
  ((List.range' t1 (t2 + 1 - t1)).map
    (fun k => ((List.range' k (t2 + 1 - k)).map (fun l => w (k, l))).sum)).sum

/-- `C[k] += v` (no-op beyond the end of the list, never reached in-source). -/
def addAt (v : Int) (C : List Int) (k : Nat) : List Int :=
  C.set k (C.getD k 0 + v)

/-- Body of the interval repair loop for the pair `q = (t1, t2)`:
if `sum_C < sum_k_l`, add the whole window total to every `C[k]`,
`k in range(t1, t2+1)`. -/
def repairInterval (w : Nat × Nat → Int) (C : List Int) (q : Nat × Nat) : List Int :=
  if intervalSumC C q.1 q.2 < sumWin w q.1 q.2 then
    (List.range' q.1 (q.2 + 1 - q.1)).foldl (addAt (sumWin w q.1 q.2)) C
  else C

/-- The flattened sequence of interval pairs `(t1, t2)` visited by the
time-window repair double loop, in visiting order. -/
def intervalPairs (T : Nat) : List (Nat × Nat) :=
  (List.range T).flatMap (fun t2 => (List.range (t2 + 1)).map (fun t1 => (t1, t2)))

/-- The time-window repair double loop:
`for t2 in range(T): for t1 in range(t2+1): ...`. -/
def repairTW (w : Nat × Nat → Int) (T : Nat) (C : List Int) : List Int :=
  (List.range T).foldl
    (fun acc t2 => (List.range (t2 + 1)).foldl
      (fun acc2 t1 => repairInterval w acc2 (t1, t2)) acc) C

/-- `self.d = { t: quicksum(d_w[t1, t] for t1 in range(t+1)) for t in range(T) }`. -/
def aggregate (w : Nat × Nat → Int) (T : Nat) : List Int :=
  (List.range T).map (fun t => ((List.range (t + 1)).map (fun t1 => w (t1, t))).sum)

/-- The acceptance test of the NCS pruning loop, for outer window `p = (t1, t2)`
and inner window `q = (t3, t4)`:
`(t1 <= t3 and t2 <= t4) or (t1 >= t3 and t2 >= t4)`. -/
def acceptable (p q : Nat × Nat) : Prop :=
  (p.1 ≤ q.1 ∧ p.2 ≤ q.2) ∨ (q.1 ≤ p.1 ∧ q.2 ≤ p.2)

instance acceptableDec (p q : Nat × Nat) : Decidable (acceptable p q) := by
  unfold acceptable
  infer_instance

/-- One iteration of the NCS pruning body for outer window `p` and inner
window `q`: when both are nonzero and the acceptance test fails, the inner
window's demand is zeroed in place. -/
def pruneStep (w : Nat × Nat → Int) (p q : Nat × Nat) : Nat × Nat → Int :=
  if w p ≠ 0 ∧ w q ≠ 0 then
    if acceptable p q then w else fun x => if x = q then 0 else w x
  else w

/-- The NCS pruning double loop, iterating the full cross product of the
dict's keys in insertion order and mutating while scanning:
`for t1,t2 in self.d_w: for t3,t4 in self.d_w: ...`. -/
def prune (keys : List (Nat × Nat)) (w : Nat × Nat → Int) : Nat × Nat → Int :=
  keys.foldl (fun w1 p => keys.foldl (fun w2 q => pruneStep w2 p q) w1) w

/-- One full inner pass of the pruning loop, for a fixed outer window `p`. -/
def innerPass (keys : List (Nat × Nat)) (p : Nat × Nat) (w : Nat × Nat → Int) :
    Nat × Nat → Int :=
  keys.foldl (fun w2 q => pruneStep w2 p q) w

/-- The outer pruning loop restricted to a suffix `S` of outer windows, with
inner passes still ranging over the full key list. -/
def outerFold (keys S : List (Nat × Nat)) (w : Nat × Nat → Int) : Nat × Nat → Int :=
  S.foldl (fun w1 p => innerPass keys p w1) w

/-- `x` is strictly contained in `Y`: `Y` starts strictly earlier and ends
strictly later than `x`. -/
def strictlyInside (x Y : Nat × Nat) : Prop :=
  Y.1 < x.1 ∧ x.2 < Y.2

instance strictlyInsideDec (x Y : Nat × Nat) : Decidable (strictlyInside x Y) := by
  unfold strictlyInside
  infer_instance

/-- The two-phase pruning algorithm the refinement claim compares against:
in one non-mutating pass, zero exactly the windows strictly contained in some
window whose sampled demand is nonzero; all other windows keep their value. -/
def twoPhasePrune (keys : List (Nat × Nat)) (w : Nat × Nat → Int) : Nat × Nat → Int :=
  fun x => if ∃ Y ∈ keys, w Y ≠ 0 ∧ strictlyInside x Y then 0 else w x

namespace GeneratorTW_CS

/-- The sampling stage of `GeneratorTW_CS.generate`: `h, p, s`, then the
window demands, then `C`. -/
def sampleRaw (T : Nat) (a b dw_a dw_b : Int) (r : RNG) : RawTW × RNG :=
  let hs := sampleList a b T r
  let ps := sampleList a b T hs.2
  let ss := sampleList a b T ps.2
  let dws := sampleDW dw_a dw_b (windowKeys T) ss.2
  let Cs := sampleList a b T dws.2
  (RawTW.mk hs.1 ps.1 ss.1 dws.1 Cs.1, Cs.2)

/-- `GeneratorTW_CS.generate(a, b, dw_a, dw_b)` (source defaults `1, 6, 0, 4`):
sample, repair capacity interval-wise, derive the aggregate demand. -/
def generate (T : Nat) (a b dw_a dw_b : Int) (r : RNG) : DatasetTW × RNG :=
  let rs := sampleRaw T a b dw_a dw_b r
  (DatasetTW.mk rs.1.h rs.1.p rs.1.s (aggregate rs.1.dw T)
    (repairTW rs.1.dw T rs.1.C0) rs.1.dw, rs.2)

/-- `GeneratorTW_CS.seed(a)`: identical body to `Generator.seed`. -/
def seed (seedFn : Int → Nat → Nat) (a : Option Int) (r : RNG) : RNG :=
  match a with
  | none => r
  | some v => if v = 0 then r else RNG.mk (seedFn v) 0

end GeneratorTW_CS

namespace GeneratorTW_NCS

/-- The sampling stage of `GeneratorTW_NCS.generate`: identical draws, in the
same order, as the CS variant (pruning consumes no randomness). -/
def sampleRaw (T : Nat) (a b dw_a dw_b : Int) (r : RNG) : RawTW × RNG :=
  let hs := sampleList a b T r
  let ps := sampleList a b T hs.2
  let ss := sampleList a b T ps.2
  let dws := sampleDW dw_a dw_b (windowKeys T) ss.2
  let Cs := sampleList a b T dws.2
  (RawTW.mk hs.1 ps.1 ss.1 dws.1 Cs.1, Cs.2)

/-- `GeneratorTW_NCS.generate(a, b, dw_a, dw_b)`: sample, prune strictly
contained windows, repair capacity interval-wise against the pruned demands,
derive the aggregate demand from the pruned demands. -/
def generate (T : Nat) (a b dw_a dw_b : Int) (r : RNG) : DatasetTW × RNG :=
  let rs := sampleRaw T a b dw_a dw_b r
  let w := prune (windowKeys T) rs.1.dw
  (DatasetTW.mk rs.1.h rs.1.p rs.1.s (aggregate w T) (repairTW w T rs.1.C0) w, rs.2)

/-- `GeneratorTW_NCS.seed(a)`: identical body to `Generator.seed`. -/
def seed (seedFn : Int → Nat → Nat) (a : Option Int) (r : RNG) : RNG :=
  match a with
  | none => r
  | some v => if v = 0 then r else RNG.mk (seedFn v) 0

end GeneratorTW_NCS

/-!
Helper lemmas: the random source, sampling, and list access.
-/

theorem randint_fst_lower (a b : Int) (r : RNG) : a ≤ (randint a b r).1 := by
  unfold randint
  have : (0 : Int) ≤ ((r.stream r.idx % (b - a + 1).toNat : Nat) : Int) := Int.ofNat_nonneg _
  omega

theorem randint_fst_upper (a b : Int) (r : RNG) (hab : a ≤ b) : (randint a b r).1 ≤ b := by
  unfold randint
  have hpos : 0 < (b - a + 1).toNat := by omega
  have hlt : r.stream r.idx % (b - a + 1).toNat < (b - a + 1).toNat := Nat.mod_lt _ hpos
  have : ((r.stream r.idx % (b - a + 1).toNat : Nat) : Int) < ((b - a + 1).toNat : Int) := by
    exact_mod_cast hlt
  have htn : ((b - a + 1).toNat : Int) = b - a + 1 := Int.toNat_of_nonneg (by omega)
  omega

theorem sampleList_length (a b : Int) (n : Nat) (r : RNG) :
    ((sampleList a b n r).1).length = n := by
  induction n generalizing r with
  | zero => rfl
  | succ m ih => simp [sampleList, ih]

theorem sampleList_getD_nonneg (a b : Int) (n : Nat) (r : RNG) (ha : 0 ≤ a) (i : Nat) :
    0 ≤ ((sampleList a b n r).1).getD i 0 := by
  induction n generalizing r i with
  | zero => simp [sampleList]
  | succ m ih =>
    cases i with
    | zero =>
      simp only [sampleList, List.getD_cons_zero]
      exact le_trans ha (randint_fst_lower a b r)
    | succ j =>
      simp only [sampleList, List.getD_cons_succ]
      exact ih _ _

theorem sampleList_getD_bounds (a b : Int) (n : Nat) (r : RNG) (hab : a ≤ b)
    (t : Nat) (ht : t < n) :
    a ≤ ((sampleList a b n r).1).getD t 0 ∧ ((sampleList a b n r).1).getD t 0 ≤ b := by
  induction n generalizing r t with
  | zero => omega
  | succ m ih =>
    cases t with
    | zero =>
      simp only [sampleList, List.getD_cons_zero]
      exact ⟨randint_fst_lower a b r, randint_fst_upper a b r hab⟩
    | succ j =>
      simp only [sampleList, List.getD_cons_succ]
      exact ih _ j (by omega)

theorem getD_set_self (l : List Int) (k : Nat) (v : Int) (h : k < l.length) :
    (l.set k v).getD k 0 = v := by
  rw [List.getD_eq_getElem _ 0 (by simpa using h)]
  simp [List.getElem_set]

theorem getD_set_ne (l : List Int) (k j : Nat) (v : Int) (h : j ≠ k) :
    (l.set k v).getD j 0 = l.getD j 0 := by
  rcases Nat.lt_or_ge j l.length with hj | hj
  · rw [List.getD_eq_getElem _ 0 (by simpa using hj), List.getD_eq_getElem _ 0 hj]
    simp [List.getElem_set, h.symm]
  · rw [List.getD_eq_default _ 0 (by simpa using hj), List.getD_eq_default _ 0 hj]

/-!
Helper lemmas: the base repair double loop.
-/

theorem repairStep_length (d C : List Int) (k : Nat) :
    (repairStep d C k).length = C.length := by
  unfold repairStep
  split <;> simp

theorem repairStep_getD (d C : List Int) (k : Nat) (hk : k < C.length) (j : Nat) :
    (repairStep d C k).getD j 0 =
      if j = k ∧ C.getD j 0 < d.getD j 0 then C.getD j 0 + d.getD j 0 else C.getD j 0 := by
  unfold repairStep
  by_cases hjk : j = k
  · subst hjk
    by_cases hlt : C.getD j 0 < d.getD j 0
    · rw [if_pos hlt, getD_set_self _ _ _ hk, if_pos ⟨rfl, hlt⟩]
    · rw [if_neg hlt, if_neg (by tauto)]
  · by_cases hlt : C.getD k 0 < d.getD k 0
    · rw [if_pos hlt, getD_set_ne _ _ _ _ hjk, if_neg (by tauto)]
    · rw [if_neg hlt, if_neg (by tauto)]

theorem foldl_repairStep_length (d : List Int) (L : List Nat) (C : List Int) :
    (L.foldl (repairStep d) C).length = C.length := by
  induction L generalizing C with
  | nil => rfl
  | cons k L ih => simp [List.foldl_cons, ih, repairStep_length]

theorem foldl_repairStep_getD (d : List Int) (L : List Nat) (C : List Int)
    (hd : ∀ i, 0 ≤ d.getD i 0) (hC : ∀ i, 0 ≤ C.getD i 0)
    (hL : ∀ k ∈ L, k < C.length) (j : Nat) :
    (L.foldl (repairStep d) C).getD j 0 =
      if j ∈ L ∧ C.getD j 0 < d.getD j 0 then C.getD j 0 + d.getD j 0 else C.getD j 0 := by
  induction L generalizing C with
  | nil => simp
  | cons k L ih =>
    have hk : k < C.length := hL k (by simp)
    have hC' : ∀ i, 0 ≤ (repairStep d C k).getD i 0 := by
      intro i
      rw [repairStep_getD d C k hk i]
      have := hd i
      have := hC i
      split <;> omega
    have hL' : ∀ x ∈ L, x < (repairStep d C k).length := by
      intro x hx
      rw [repairStep_length]
      exact hL x (List.mem_cons_of_mem _ hx)
    rw [List.foldl_cons, ih (repairStep d C k) hC' hL', repairStep_getD d C k hk j]
    have hdj := hd j
    have hCj := hC j
    by_cases h1 : j = k
    · subst h1
      by_cases h2 : C.getD j 0 < d.getD j 0
      · have hinner : (if j = j ∧ C.getD j 0 < d.getD j 0
            then C.getD j 0 + d.getD j 0 else C.getD j 0) = C.getD j 0 + d.getD j 0 :=
          if_pos ⟨rfl, h2⟩
        rw [hinner, if_neg ?hno, if_pos ⟨List.mem_cons_self j L, h2⟩]
        case hno =>
          rintro ⟨-, hcon⟩
          omega
      · have hinner : (if j = j ∧ C.getD j 0 < d.getD j 0
            then C.getD j 0 + d.getD j 0 else C.getD j 0) = C.getD j 0 :=
          if_neg (fun hc => h2 hc.2)
        rw [hinner, if_neg (fun hc => h2 hc.2), if_neg (fun hc => h2 hc.2)]
    · have hinner : (if j = k ∧ C.getD j 0 < d.getD j 0
          then C.getD j 0 + d.getD j 0 else C.getD j 0) = C.getD j 0 :=
        if_neg (fun hc => h1 hc.1)
      rw [hinner]
      simp only [List.mem_cons, h1, false_or]

theorem foldl_flatMap_eq {α β γ : Type} (l : List α) (f : α → List β) (g : γ → β → γ) (i : γ) :
    (l.flatMap f).foldl g i = l.foldl (fun acc x => (f x).foldl g acc) i := by
  induction l generalizing i with
  | nil => rfl
  | cons a l ih => simp [List.flatMap_cons, List.foldl_append, ih]

theorem repair_eq_foldl_baseSeq (d C : List Int) (T : Nat) :
    repair d C T = (baseSeq T).foldl (repairStep d) C := by
  unfold repair baseSeq
  exact (foldl_flatMap_eq _ _ _ _).symm

theorem mem_baseSeq (j T : Nat) : j ∈ baseSeq T ↔ j < T := by
  unfold baseSeq
  simp only [List.mem_flatMap, List.mem_range]
  constructor
  · rintro ⟨t, ht, hj⟩
    omega
  · intro hj
    exact ⟨j, hj, by omega⟩

/-!
Helper lemmas: window keys.
-/

theorem pairwise_trivial {α : Type} (l : List α) (R : α → α → Prop) (h : ∀ a b, R a b) :
    l.Pairwise R := by
  induction l with
  | nil => exact List.Pairwise.nil
  | cons a l ih => exact List.Pairwise.cons (fun b _ => h a b) ih

theorem pairwise_flatMap_of {α β : Type} (R : β → β → Prop) (l : List α) (f : α → List β)
    (h1 : ∀ a ∈ l, (f a).Pairwise R)
    (h2 : l.Pairwise (fun a b => ∀ x ∈ f a, ∀ y ∈ f b, R x y)) :
    (l.flatMap f).Pairwise R := by
  induction l with
  | nil => simp
  | cons a l ih =>
    rw [List.flatMap_cons, List.pairwise_append]
    refine ⟨h1 a (by simp), ih (fun b hb => h1 b (by simp [hb])) h2.of_cons, ?_⟩
    intro x hx y hy
    rw [List.mem_flatMap] at hy
    obtain ⟨b, hb, hyb⟩ := hy
    exact (List.pairwise_cons.1 h2).1 b hb x hx y hyb

theorem mem_windowKeys (i j T : Nat) : (i, j) ∈ windowKeys T ↔ i ≤ j ∧ j < T := by
  unfold windowKeys
  simp only [List.mem_flatMap, List.mem_range, List.mem_map, List.mem_range'_1, Prod.mk.injEq]
  constructor
  · rintro ⟨a, ha, b, ⟨hb1, hb2⟩, rfl, rfl⟩
    omega
  · rintro ⟨h1, h2⟩
    exact ⟨i, by omega, j, ⟨h1, by omega⟩, rfl, rfl⟩

theorem windowKeys_nodup (T : Nat) : (windowKeys T).Nodup := by
  unfold windowKeys
  apply List.nodup_flatMap.2
  constructor
  · intro a _
    exact (List.nodup_range' _ _).map (fun x y hxy => by simpa using hxy)
  · apply List.Pairwise.imp ?_ (List.pairwise_lt_range T)
    intro a b hab x hx hy
    rw [List.mem_map] at hx hy
    obtain ⟨xa, -, rfl⟩ := hx
    obtain ⟨ya, -, h⟩ := hy
    have : b = a := by
      have := congrArg Prod.fst h
      simpa using this
    omega

theorem windowKeys_pairwise_fst (T : Nat) :
    (windowKeys T).Pairwise (fun x y => x.1 ≤ y.1) := by
  unfold windowKeys
  apply pairwise_flatMap_of
  · intro a _
    rw [List.pairwise_map]
    exact pairwise_trivial _ _ (fun _ _ => le_refl a)
  · apply List.Pairwise.imp ?_ (List.pairwise_lt_range T)
    intro a b hab x hx y hy
    rw [List.mem_map] at hx hy
    obtain ⟨xa, -, rfl⟩ := hx
    obtain ⟨ya, -, rfl⟩ := hy
    exact le_of_lt hab

/-!
Helper lemmas: window-demand sampling.
-/

theorem sampleDW_not_mem (dw_a dw_b : Int) (keys : List (Nat × Nat)) (r : RNG)
    (x : Nat × Nat) (hx : x ∉ keys) : (sampleDW dw_a dw_b keys r).1 x = 0 := by
  induction keys generalizing r with
  | nil => rfl
  | cons q rest ih =>
    simp only [List.mem_cons, not_or] at hx
    unfold sampleDW
    split <;> simp [hx.1, ih _ hx.2]

theorem sampleDW_diag (dw_a dw_b : Int) (keys : List (Nat × Nat)) (r : RNG) (i : Nat) :
    (sampleDW dw_a dw_b keys r).1 (i, i) = 0 := by
  induction keys generalizing r with
  | nil => rfl
  | cons q rest ih =>
    unfold sampleDW
    split <;> rename_i hq
    · by_cases hxq : (i, i) = q
      · simp [hxq]
      · simp [hxq, ih]
    · by_cases hxq : (i, i) = q
      · exfalso
        subst hxq
        exact hq rfl
      · simp [hxq, ih]

theorem sampleDW_mem_ne (dw_a dw_b : Int) (keys : List (Nat × Nat)) (r : RNG)
    (x : Nat × Nat) (hmem : x ∈ keys) (hne : x.1 ≠ x.2) :
    dw_a ≤ (sampleDW dw_a dw_b keys r).1 x ∧
      (dw_a ≤ dw_b → (sampleDW dw_a dw_b keys r).1 x ≤ dw_b) := by
  induction keys generalizing r with
  | nil => cases hmem
  | cons q rest ih =>
    by_cases hxq : x = q
    · subst hxq
      unfold sampleDW
      rw [if_neg hne]
      simp only [if_pos rfl]
      exact ⟨randint_fst_lower _ _ _, fun hab => randint_fst_upper _ _ _ hab⟩
    · have hxrest : x ∈ rest := by
        rcases List.mem_cons.1 hmem with h | h
        · exact absurd h hxq
        · exact h
      unfold sampleDW
      split <;> simp only [if_neg hxq] <;> exact ih _ hxrest

theorem sampleDW_nonneg (dw_a dw_b : Int) (ha : 0 ≤ dw_a) (keys : List (Nat × Nat)) (r : RNG)
    (x : Nat × Nat) : 0 ≤ (sampleDW dw_a dw_b keys r).1 x := by
  induction keys generalizing r with
  | nil => simp [sampleDW]
  | cons q rest ih =>
    unfold sampleDW
    split
    · by_cases hxq : x = q <;> simp [hxq, ih]
    · by_cases hxq : x = q
      · simp only [if_pos hxq]
        exact le_trans ha (randint_fst_lower _ _ _)
      · simp only [if_neg hxq]
        exact ih _

/-!
Helper lemmas: interval sums and the time-window repair loop.
-/

theorem intervalSumC_nonneg (C : List Int) (t1 t2 : Nat) (hC : ∀ i, 0 ≤ C.getD i 0) :
    0 ≤ intervalSumC C t1 t2 := by
  unfold intervalSumC
  apply List.sum_nonneg
  intro x hx
  rw [List.mem_map] at hx
  obtain ⟨k, -, rfl⟩ := hx
  exact hC k

theorem intervalSumC_mono (C C' : List Int) (t1 t2 : Nat)
    (h : ∀ x, C.getD x 0 ≤ C'.getD x 0) :
    intervalSumC C t1 t2 ≤ intervalSumC C' t1 t2 :=
  List.sum_le_sum (fun k _ => h k)

theorem sumWin_nonneg (w : Nat × Nat → Int) (t1 t2 : Nat) (hw : ∀ y, 0 ≤ w y) :
    0 ≤ sumWin w t1 t2 := by
  unfold sumWin
  apply List.sum_nonneg
  intro x hx
  rw [List.mem_map] at hx
  obtain ⟨k, -, rfl⟩ := hx
  apply List.sum_nonneg
  intro y hy
  rw [List.mem_map] at hy
  obtain ⟨l, -, rfl⟩ := hy
  exact hw (k, l)

theorem addAt_length (v : Int) (C : List Int) (k : Nat) : (addAt v C k).length = C.length := by
  unfold addAt
  simp

theorem addAt_getD_le (v : Int) (hv : 0 ≤ v) (C : List Int) (k x : Nat) :
    C.getD x 0 ≤ (addAt v C k).getD x 0 := by
  unfold addAt
  by_cases hxk : x = k
  · subst hxk
    by_cases hk : x < C.length
    · rw [getD_set_self _ _ _ hk]
      omega
    · rw [List.getD_eq_default _ 0 (by omega),
        List.getD_eq_default _ 0 (by rw [List.length_set]; omega)]
  · rw [getD_set_ne _ _ _ _ hxk]

theorem sum_map_update_once (f g : Nat → Int) (v : Int) (l : List Nat) (k : Nat)
    (hnd : l.Nodup) (hk : k ∈ l) (hupd : g k = f k + v)
    (hother : ∀ x ∈ l, x ≠ k → g x = f x) :
    (l.map g).sum = (l.map f).sum + v := by
  induction l with
  | nil => cases hk
  | cons a l ih =>
    rcases List.mem_cons.1 hk with h1 | hk'
    · subst h1
      have hknotl : k ∉ l := (List.nodup_cons.1 hnd).1
      have hrest : l.map g = l.map f := by
        apply List.map_congr_left
        intro x hx
        exact hother x (List.mem_cons_of_mem _ hx) (fun hxa => hknotl (hxa ▸ hx))
      simp only [List.map_cons, List.sum_cons, hupd, hrest]
      ring
    · have hak : a ≠ k := by
        rintro rfl
        exact (List.nodup_cons.1 hnd).1 hk'
      simp only [List.map_cons, List.sum_cons]
      rw [ih (List.nodup_cons.1 hnd).2 hk'
        (fun x hx hxk => hother x (List.mem_cons_of_mem _ hx) hxk),
        hother a (by simp) hak]
      ring

theorem intervalSumC_addAt (v : Int) (C : List Int) (t1 t2 k : Nat)
    (h1 : t1 ≤ k) (h2 : k ≤ t2) (hk : k < C.length) :
    intervalSumC (addAt v C k) t1 t2 = intervalSumC C t1 t2 + v := by
  unfold intervalSumC
  apply sum_map_update_once _ _ v _ k (List.nodup_range' _ _)
  · rw [List.mem_range'_1]
    omega
  · unfold addAt
    exact getD_set_self _ _ _ hk
  · intro x _ hxk
    unfold addAt
    exact getD_set_ne _ _ _ _ hxk

theorem foldl_addAt_length (v : Int) (L : List Nat) (C : List Int) :
    (L.foldl (addAt v) C).length = C.length := by
  induction L generalizing C with
  | nil => rfl
  | cons k L ih => simp [List.foldl_cons, ih, addAt_length]

theorem foldl_addAt_getD_le (v : Int) (hv : 0 ≤ v) (L : List Nat) (C : List Int) (x : Nat) :
    C.getD x 0 ≤ (L.foldl (addAt v) C).getD x 0 := by
  induction L generalizing C with
  | nil => simp
  | cons k L ih =>
    rw [List.foldl_cons]
    exact le_trans (addAt_getD_le v hv C k x) (ih _)

theorem intervalSumC_foldl_addAt (v : Int) (L : List Nat) (C : List Int) (t1 t2 : Nat)
    (hL : ∀ k ∈ L, t1 ≤ k ∧ k ≤ t2 ∧ k < C.length) :
    intervalSumC (L.foldl (addAt v) C) t1 t2 = intervalSumC C t1 t2 + L.length * v := by
  induction L generalizing C with
  | nil => simp
  | cons k L ih =>
    obtain ⟨hk1, hk2, hk3⟩ := hL k (by simp)
    rw [List.foldl_cons, ih (addAt v C k)
      (fun x hx => ⟨(hL x (List.mem_cons_of_mem _ hx)).1,
        (hL x (List.mem_cons_of_mem _ hx)).2.1, by
          rw [addAt_length]
          exact (hL x (List.mem_cons_of_mem _ hx)).2.2⟩),
      intervalSumC_addAt v C t1 t2 k hk1 hk2 hk3]
    simp [List.length_cons]
    ring

theorem repairInterval_length (w : Nat × Nat → Int) (C : List Int) (q : Nat × Nat) :
    (repairInterval w C q).length = C.length := by
  unfold repairInterval
  split
  · exact foldl_addAt_length _ _ _
  · rfl

theorem repairInterval_getD_le (w : Nat × Nat → Int) (hw : ∀ y, 0 ≤ w y)
    (C : List Int) (q : Nat × Nat) (x : Nat) :
    C.getD x 0 ≤ (repairInterval w C q).getD x 0 := by
  unfold repairInterval
  split
  · exact foldl_addAt_getD_le _ (sumWin_nonneg w q.1 q.2 hw) _ _ _
  · exact le_refl _

theorem repairInterval_nonneg (w : Nat × Nat → Int) (hw : ∀ y, 0 ≤ w y)
    (C : List Int) (q : Nat × Nat) (hC : ∀ i, 0 ≤ C.getD i 0) (i : Nat) :
    0 ≤ (repairInterval w C q).getD i 0 :=
  le_trans (hC i) (repairInterval_getD_le w hw C q i)

theorem repairInterval_establishes (w : Nat × Nat → Int) (C : List Int) (q : Nat × Nat)
    (hw : ∀ y, 0 ≤ w y) (hC : ∀ i, 0 ≤ C.getD i 0)
    (hq : q.1 ≤ q.2) (hlen : q.2 < C.length) :
    sumWin w q.1 q.2 ≤ intervalSumC (repairInterval w C q) q.1 q.2 := by
  unfold repairInterval
  split <;> rename_i hcase
  · rw [intervalSumC_foldl_addAt _ _ _ _ _ ?hside]
    case hside =>
      intro k hk
      rw [List.mem_range'_1] at hk
      constructor
      · omega
      constructor
      · omega
      · omega
    have h0 : 0 ≤ intervalSumC C q.1 q.2 := intervalSumC_nonneg C q.1 q.2 hC
    have hv : 0 ≤ sumWin w q.1 q.2 := sumWin_nonneg w q.1 q.2 hw
    rw [List.length_range']
    have hlen1 : (1 : Int) ≤ ((q.2 + 1 - q.1 : Nat) : Int) := by
      have : 1 ≤ q.2 + 1 - q.1 := by omega
      exact_mod_cast this
    nlinarith [hv, h0, hlen1]
  · omega

theorem foldl_repairInterval_length (w : Nat × Nat → Int) (PS : List (Nat × Nat))
    (C : List Int) : (PS.foldl (repairInterval w) C).length = C.length := by
  induction PS generalizing C with
  | nil => rfl
  | cons p PS ih => simp [List.foldl_cons, ih, repairInterval_length]

theorem foldl_repairInterval_getD_le (w : Nat × Nat → Int) (hw : ∀ y, 0 ≤ w y)
    (PS : List (Nat × Nat)) (C : List Int) (x : Nat) :
    C.getD x 0 ≤ (PS.foldl (repairInterval w) C).getD x 0 := by
  induction PS generalizing C with
  | nil => simp
  | cons p PS ih =>
    rw [List.foldl_cons]
    exact le_trans (repairInterval_getD_le w hw C p x) (ih _)

theorem foldl_repairInterval_feasible (w : Nat × Nat → Int) (hw : ∀ y, 0 ≤ w y)
    (PS : List (Nat × Nat)) (C : List Int)
    (hC : ∀ i, 0 ≤ C.getD i 0) (hPS : ∀ p ∈ PS, p.1 ≤ p.2 ∧ p.2 < C.length)
    (q : Nat × Nat) (hq : q ∈ PS) :
    sumWin w q.1 q.2 ≤ intervalSumC (PS.foldl (repairInterval w) C) q.1 q.2 := by
  induction PS generalizing C with
  | nil => cases hq
  | cons p PS ih =>
    rw [List.foldl_cons]
    rcases List.mem_cons.1 hq with h1 | hq'
    · subst h1
      refine le_trans (repairInterval_establishes w C q hw hC
        (hPS q (by simp)).1 (hPS q (by simp)).2) ?_
      apply intervalSumC_mono
      intro x
      exact foldl_repairInterval_getD_le w hw PS _ x
    · refine ih (repairInterval w C p) (repairInterval_nonneg w hw C p hC) ?_ hq'
      intro x hx
      rw [repairInterval_length]
      exact hPS x (List.mem_cons_of_mem _ hx)

theorem repairTW_eq_foldl (w : Nat × Nat → Int) (T : Nat) (C : List Int) :
    repairTW w T C = (intervalPairs T).foldl (repairInterval w) C := by
  unfold repairTW intervalPairs
  rw [foldl_flatMap_eq]
  simp only [List.foldl_map]

theorem mem_intervalPairs (t1 t2 T : Nat) :
    (t1, t2) ∈ intervalPairs T ↔ t1 ≤ t2 ∧ t2 < T := by
  unfold intervalPairs
  simp only [List.mem_flatMap, List.mem_range, List.mem_map, Prod.mk.injEq]
  constructor
  · rintro ⟨a, ha, b, hb, rfl, rfl⟩
    omega
  · rintro ⟨h1, h2⟩
    exact ⟨t2, h2, t1, by omega, rfl, rfl⟩

theorem aggregate_getD (w : Nat × Nat → Int) (T t : Nat) (ht : t < T) :
    (aggregate w T).getD t 0 = ((List.range (t + 1)).map (fun t1 => w (t1, t))).sum := by
  unfold aggregate
  rw [List.getD_eq_getElem _ 0 (by simpa using ht)]
  simp

/-!
Helper lemmas: the NCS pruning loop.
-/

theorem acceptable_refl (p : Nat × Nat) : acceptable p p :=
  Or.inl ⟨le_refl _, le_refl _⟩

theorem not_acceptable_iff (p q : Nat × Nat) :
    ¬acceptable p q ↔ strictlyInside q p ∨ strictlyInside p q := by
  unfold acceptable strictlyInside
  omega

theorem strictlyInside_trans (x y z : Nat × Nat)
    (h1 : strictlyInside x y) (h2 : strictlyInside y z) : strictlyInside x z := by
  unfold strictlyInside at h1 h2 ⊢
  omega

theorem strictlyInside_not_acceptable (x p : Nat × Nat) (h : strictlyInside x p) :
    ¬acceptable p x := by
  unfold strictlyInside at h
  unfold acceptable
  omega

theorem pruneStep_apply (w : Nat × Nat → Int) (p q x : Nat × Nat) :
    pruneStep w p q x =
      if x = q ∧ w p ≠ 0 ∧ w q ≠ 0 ∧ ¬acceptable p q then 0 else w x := by
  unfold pruneStep
  by_cases h1 : w p ≠ 0 ∧ w q ≠ 0
  · rw [if_pos h1]
    by_cases h2 : acceptable p q
    · rw [if_pos h2, if_neg (by tauto)]
    · rw [if_neg h2]
      show (if x = q then 0 else w x) = _
      by_cases h3 : x = q
      · rw [if_pos h3, if_pos ⟨h3, h1.1, h1.2, h2⟩]
      · rw [if_neg h3, if_neg (by tauto)]
  · rw [if_neg h1, if_neg (by tauto)]

theorem pruneStep_apply_p (w : Nat × Nat → Int) (p q : Nat × Nat) :
    pruneStep w p q p = w p := by
  rw [pruneStep_apply]
  rw [if_neg ?hn]
  case hn =>
    rintro ⟨rfl, -, -, hna⟩
    exact hna (acceptable_refl p)

theorem innerPass_apply (ks : List (Nat × Nat)) (p : Nat × Nat) (w : Nat × Nat → Int)
    (x : Nat × Nat) :
    innerPass ks p w x = if w p ≠ 0 ∧ x ∈ ks ∧ ¬acceptable p x then 0 else w x := by
  unfold innerPass
  induction ks generalizing w with
  | nil => simp
  | cons q l ih =>
    rw [List.foldl_cons, ih (pruneStep w p q), pruneStep_apply_p w p q,
      pruneStep_apply w p q x]
    by_cases hD : x = q
    · subst hD
      by_cases hA : w p = 0
      · simp [hA]
      · by_cases hF : acceptable p x
        · simp [hA, hF]
        · by_cases hE : w x = 0
          · simp [hA, hE, hF]
          · simp [hA, hE, hF, List.mem_cons]
    · simp [List.mem_cons, hD]

theorem mem_left_of_fst_lt (P S : List (Nat × Nat)) (p x : Nat × Nat)
    (hord : (P ++ p :: S).Pairwise (fun a b => a.1 ≤ b.1))
    (hx : x ∈ P ++ p :: S) (hlt : x.1 < p.1) : x ∈ P := by
  rcases List.mem_append.1 hx with h | h
  · exact h
  · exfalso
    rcases List.mem_cons.1 h with h1 | h'
    · rw [h1] at hlt
      omega
    · have := (List.pairwise_cons.1 (List.pairwise_append.1 hord).2.1).1 x h'
      omega

theorem prune_aux (ks : List (Nat × Nat)) (w0 : Nat × Nat → Int)
    (hord : ks.Pairwise (fun a b => a.1 ≤ b.1)) :
    ∀ (S P : List (Nat × Nat)) (w : Nat × Nat → Int), ks = P ++ S →
    (∀ x, w x = w0 x ∨ w x = 0) →
    (∀ x, w x = 0 → w0 x = 0 ∨ ∃ Y ∈ ks, w0 Y ≠ 0 ∧ strictlyInside x Y) →
    (∀ Y ∈ P, w0 Y ≠ 0 → ∀ x ∈ ks, strictlyInside x Y → w x = 0) →
    (∀ x, outerFold ks S w x = w0 x ∨ outerFold ks S w x = 0) ∧
    (∀ x, outerFold ks S w x = 0 →
      w0 x = 0 ∨ ∃ Y ∈ ks, w0 Y ≠ 0 ∧ strictlyInside x Y) ∧
    (∀ Y ∈ P ++ S, w0 Y ≠ 0 → ∀ x ∈ ks, strictlyInside x Y → outerFold ks S w x = 0) := by
  intro S
  induction S with
  | nil =>
    intro P w hsplit hJ1 hJ2 hJ3
    refine ⟨hJ1, hJ2, ?_⟩
    intro Y hY
    exact hJ3 Y (by simpa using hY)
  | cons p S ih =>
    intro P w hsplit hJ1 hJ2 hJ3
    have hw1x : ∀ x, innerPass ks p w x =
        if w p ≠ 0 ∧ x ∈ ks ∧ ¬acceptable p x then 0 else w x :=
      fun x => innerPass_apply ks p w x
    have hpmem : p ∈ ks := by
      rw [hsplit]
      simp
    have hJ1' : ∀ x, innerPass ks p w x = w0 x ∨ innerPass ks p w x = 0 := by
      intro x
      rw [hw1x x]
      split
      · right
        rfl
      · exact hJ1 x
    have hJ2' : ∀ x, innerPass ks p w x = 0 →
        w0 x = 0 ∨ ∃ Y ∈ ks, w0 Y ≠ 0 ∧ strictlyInside x Y := by
      intro x hx0
      rw [hw1x x] at hx0
      by_cases hcond : w p ≠ 0 ∧ x ∈ ks ∧ ¬acceptable p x
      case neg =>
        rw [if_neg hcond] at hx0
        exact hJ2 x hx0
      case pos =>
        obtain ⟨hp0, hxk, hnacc⟩ := hcond
        by_cases hwx : w x = 0
        · exact hJ2 x hwx
        · rcases (not_acceptable_iff p x).1 hnacc with hin | hin
          · right
            refine ⟨p, hpmem, ?_, hin⟩
            rcases hJ1 p with h | h
            · rw [← h]
              exact hp0
            · exact absurd h hp0
          · exfalso
            have hxP : x ∈ P := by
              apply mem_left_of_fst_lt P S p x (hsplit ▸ hord) (hsplit ▸ hxk) hin.1
            have hw0x : w0 x ≠ 0 := by
              rcases hJ1 x with h | h
              · rw [← h]
                exact hwx
              · exact absurd h hwx
            exact hp0 (hJ3 x hxP hw0x p hpmem hin)
    have hJ3' : ∀ Y ∈ P ++ [p], w0 Y ≠ 0 → ∀ x ∈ ks, strictlyInside x Y →
        innerPass ks p w x = 0 := by
      intro Y hY hY0 x hxk hins
      rcases List.mem_append.1 hY with hYP | hYp
      · have hzero := hJ3 Y hYP hY0 x hxk hins
        rw [hw1x x]
        split
        · rfl
        · exact hzero
      · have hYeq : Y = p := by simpa using hYp
        subst hYeq
        by_cases hwp : w Y = 0
        · rcases hJ2 Y hwp with h0 | ⟨Z, hZk, hZ0, hZin⟩
          · exact absurd h0 hY0
          · have hZP : Z ∈ P := by
              apply mem_left_of_fst_lt P S Y Z (hsplit ▸ hord) (hsplit ▸ hZk) hZin.1
            have hzero := hJ3 Z hZP hZ0 x hxk (strictlyInside_trans x Y Z hins hZin)
            rw [hw1x x]
            split
            · rfl
            · exact hzero
        · rw [hw1x x, if_pos ⟨hwp, hxk, strictlyInside_not_acceptable x Y hins⟩]
    have hsplit' : ks = (P ++ [p]) ++ S := by
      rw [hsplit]
      simp
    have hrec := ih (P ++ [p]) (innerPass ks p w) hsplit' hJ1' hJ2' hJ3'
    have hstep : outerFold ks (p :: S) w = outerFold ks S (innerPass ks p w) := rfl
    refine ⟨?_, ?_, ?_⟩
    · rw [hstep]
      exact hrec.1
    · rw [hstep]
      exact hrec.2.1
    · intro Y hY hY0 x hx hins
      rw [hstep]
      apply hrec.2.2 Y ?_ hY0 x hx hins
      simpa using hY

theorem prune_char (T : Nat) (w0 : Nat × Nat → Int) (x : Nat × Nat)
    (hx : x ∈ windowKeys T) :
    prune (windowKeys T) w0 x =
      if ∃ Y ∈ windowKeys T, w0 Y ≠ 0 ∧ strictlyInside x Y then 0 else w0 x := by
  have haux := prune_aux (windowKeys T) w0 (windowKeys_pairwise_fst T) (windowKeys T) []
    w0 (by simp) (fun y => Or.inl rfl) (fun y hy0 => Or.inl hy0) (by simp)
  have hpr : prune (windowKeys T) w0 = outerFold (windowKeys T) (windowKeys T) w0 := rfl
  rw [hpr]
  split <;> rename_i hex
  · obtain ⟨Y, hYk, hY0, hYin⟩ := hex
    exact haux.2.2 Y (by simpa using hYk) hY0 x hx hYin
  · rcases haux.1 x with h | h
    · exact h
    · rw [h]
      rcases haux.2.1 x h with h0 | ⟨Y, hYk, hY0, hYin⟩
      · exact h0.symm
      · exact absurd ⟨Y, hYk, hY0, hYin⟩ hex

theorem outerFold_zero_or_orig (ks : List (Nat × Nat)) :
    ∀ (S : List (Nat × Nat)) (w : Nat × Nat → Int) (x : Nat × Nat),
    outerFold ks S w x = w x ∨ outerFold ks S w x = 0 := by
  intro S
  induction S with
  | nil =>
    intro w x
    left
    rfl
  | cons p S ih =>
    intro w x
    have hstep : outerFold ks (p :: S) w = outerFold ks S (innerPass ks p w) := rfl
    rw [hstep]
    rcases ih (innerPass ks p w) x with h | h
    · rw [h, innerPass_apply]
      split
      · right
        rfl
      · left
        rfl
    · right
      exact h

theorem prune_zero_or_orig (ks : List (Nat × Nat)) (w : Nat × Nat → Int) (x : Nat × Nat) :
    prune ks w x = w x ∨ prune ks w x = 0 :=
  outerFold_zero_or_orig ks ks w x

theorem prune_nonneg (ks : List (Nat × Nat)) (w : Nat × Nat → Int)
    (hw : ∀ y, 0 ≤ w y) (x : Nat × Nat) : 0 ≤ prune ks w x := by
  rcases prune_zero_or_orig ks w x with h | h
  · rw [h]
    exact hw x
  · rw [h]

theorem repairStep_getD_le (d C : List Int) (j k : Nat) (hd : ∀ i, 0 ≤ d.getD i 0) :
    C.getD k 0 ≤ (repairStep d C j).getD k 0 := by
  unfold repairStep
  split <;> rename_i hlt
  · by_cases hkj : k = j
    · subst hkj
      by_cases hk : k < C.length
      · rw [getD_set_self _ _ _ hk]
        have := hd k
        omega
      · rw [List.getD_eq_default _ 0 (by omega),
          List.getD_eq_default _ 0 (by rw [List.length_set]; omega)]
    · rw [getD_set_ne _ _ _ _ hkj]
  · exact le_refl _

theorem foldl_repairStep_getD_le (d : List Int) (hd : ∀ i, 0 ≤ d.getD i 0)
    (L : List Nat) (C : List Int) (k : Nat) :
    C.getD k 0 ≤ (L.foldl (repairStep d) C).getD k 0 := by
  induction L generalizing C with
  | nil => simp
  | cons j L ih =>
    rw [List.foldl_cons]
    exact le_trans (repairStep_getD_le d C j k hd) (ih _)

theorem getD_nonneg_of_forall_mem (l : List Int) (h : ∀ x ∈ l, 0 ≤ x) (i : Nat) :
    0 ≤ l.getD i 0 := by
  rcases Nat.lt_or_ge i l.length with hi | hi
  · rw [List.getD_eq_getElem _ 0 hi]
    exact h _ (List.getElem_mem hi)
  · rw [List.getD_eq_default _ 0 hi]

/-!
Projection lemmas: each generator's `generate` in terms of its stages.
All hold by definitional unfolding.
-/

theorem Generator_generate_h (T : Nat) (a b : Int) (r : RNG) :
    (Generator.generate T a b r).1.h = (sampleList a b T r).1 := rfl

theorem Generator_generate_p (T : Nat) (a b : Int) (r : RNG) :
    (Generator.generate T a b r).1.p = (sampleList a b T (sampleList a b T r).2).1 := rfl

theorem Generator_generate_s (T : Nat) (a b : Int) (r : RNG) :
    (Generator.generate T a b r).1.s =
      (sampleList a b T (sampleList a b T (sampleList a b T r).2).2).1 := rfl

theorem Generator_generate_d (T : Nat) (a b : Int) (r : RNG) :
    (Generator.generate T a b r).1.d = (Generator.sampleRaw T a b r).1.d := rfl

theorem Generator_sampleRaw_d (T : Nat) (a b : Int) (r : RNG) :
    (Generator.sampleRaw T a b r).1.d =
      (sampleList a b T (sampleList a b T (sampleList a b T (sampleList a b T r).2).2).2).1 := rfl

theorem Generator_sampleRaw_C0 (T : Nat) (a b : Int) (r : RNG) :
    (Generator.sampleRaw T a b r).1.C0 =
      (sampleList a b T
        (sampleList a b T (sampleList a b T (sampleList a b T (sampleList a b T r).2).2).2).2).1 := rfl

theorem Generator_generate_C (T : Nat) (a b : Int) (r : RNG) :
    (Generator.generate T a b r).1.C =
      repair (Generator.sampleRaw T a b r).1.d (Generator.sampleRaw T a b r).1.C0 T := rfl

theorem CS_generate_h (T : Nat) (a b dw_a dw_b : Int) (r : RNG) :
    (GeneratorTW_CS.generate T a b dw_a dw_b r).1.h = (sampleList a b T r).1 := rfl

theorem CS_generate_p (T : Nat) (a b dw_a dw_b : Int) (r : RNG) :
    (GeneratorTW_CS.generate T a b dw_a dw_b r).1.p =
      (sampleList a b T (sampleList a b T r).2).1 := rfl

theorem CS_generate_s (T : Nat) (a b dw_a dw_b : Int) (r : RNG) :
    (GeneratorTW_CS.generate T a b dw_a dw_b r).1.s =
      (sampleList a b T (sampleList a b T (sampleList a b T r).2).2).1 := rfl

theorem CS_sampleRaw_dw (T : Nat) (a b dw_a dw_b : Int) (r : RNG) :
    (GeneratorTW_CS.sampleRaw T a b dw_a dw_b r).1.dw =
      (sampleDW dw_a dw_b (windowKeys T)
        (sampleList a b T (sampleList a b T (sampleList a b T r).2).2).2).1 := rfl

theorem CS_sampleRaw_C0 (T : Nat) (a b dw_a dw_b : Int) (r : RNG) :
    (GeneratorTW_CS.sampleRaw T a b dw_a dw_b r).1.C0 =
      (sampleList a b T
        (sampleDW dw_a dw_b (windowKeys T)
          (sampleList a b T (sampleList a b T (sampleList a b T r).2).2).2).2).1 := rfl

theorem CS_generate_dw (T : Nat) (a b dw_a dw_b : Int) (r : RNG) :
    (GeneratorTW_CS.generate T a b dw_a dw_b r).1.d_w =
      (GeneratorTW_CS.sampleRaw T a b dw_a dw_b r).1.dw := rfl

theorem CS_generate_C (T : Nat) (a b dw_a dw_b : Int) (r : RNG) :
    (GeneratorTW_CS.generate T a b dw_a dw_b r).1.C =
      repairTW (GeneratorTW_CS.sampleRaw T a b dw_a dw_b r).1.dw T
        (GeneratorTW_CS.sampleRaw T a b dw_a dw_b r).1.C0 := rfl

theorem CS_generate_d (T : Nat) (a b dw_a dw_b : Int) (r : RNG) :
    (GeneratorTW_CS.generate T a b dw_a dw_b r).1.d =
      aggregate (GeneratorTW_CS.sampleRaw T a b dw_a dw_b r).1.dw T := rfl

theorem NCS_generate_h (T : Nat) (a b dw_a dw_b : Int) (r : RNG) :
    (GeneratorTW_NCS.generate T a b dw_a dw_b r).1.h = (sampleList a b T r).1 := rfl

theorem NCS_generate_p (T : Nat) (a b dw_a dw_b : Int) (r : RNG) :
    (GeneratorTW_NCS.generate T a b dw_a dw_b r).1.p =
      (sampleList a b T (sampleList a b T r).2).1 := rfl

theorem NCS_generate_s (T : Nat) (a b dw_a dw_b : Int) (r : RNG) :
    (GeneratorTW_NCS.generate T a b dw_a dw_b r).1.s =
      (sampleList a b T (sampleList a b T (sampleList a b T r).2).2).1 := rfl

theorem NCS_sampleRaw_dw (T : Nat) (a b dw_a dw_b : Int) (r : RNG) :
    (GeneratorTW_NCS.sampleRaw T a b dw_a dw_b r).1.dw =
      (sampleDW dw_a dw_b (windowKeys T)
        (sampleList a b T (sampleList a b T (sampleList a b T r).2).2).2).1 := rfl

theorem NCS_sampleRaw_C0 (T : Nat) (a b dw_a dw_b : Int) (r : RNG) :
    (GeneratorTW_NCS.sampleRaw T a b dw_a dw_b r).1.C0 =
      (sampleList a b T
        (sampleDW dw_a dw_b (windowKeys T)
          (sampleList a b T (sampleList a b T (sampleList a b T r).2).2).2).2).1 := rfl

theorem NCS_generate_dw (T : Nat) (a b dw_a dw_b : Int) (r : RNG) :
    (GeneratorTW_NCS.generate T a b dw_a dw_b r).1.d_w =
      prune (windowKeys T) (GeneratorTW_NCS.sampleRaw T a b dw_a dw_b r).1.dw := rfl

theorem NCS_generate_C (T : Nat) (a b dw_a dw_b : Int) (r : RNG) :
    (GeneratorTW_NCS.generate T a b dw_a dw_b r).1.C =
      repairTW (prune (windowKeys T) (GeneratorTW_NCS.sampleRaw T a b dw_a dw_b r).1.dw) T
        (GeneratorTW_NCS.sampleRaw T a b dw_a dw_b r).1.C0 := rfl

theorem NCS_generate_d (T : Nat) (a b dw_a dw_b : Int) (r : RNG) :
    (GeneratorTW_NCS.generate T a b dw_a dw_b r).1.d =
      aggregate (prune (windowKeys T) (GeneratorTW_NCS.sampleRaw T a b dw_a dw_b r).1.dw) T := rfl

/-!
Claim theorems.
-/

set_option maxRecDepth 100000

/-- Claim C4, counterexample: with only the stated precondition `a ≤ b`
(here `a = -1`, `b = 0`, `T = 1`), a run of the base generator ends with
`C[0] = -1 < 0 = d[0]`, so `C[t] ≥ d[t]` fails as stated. -/
theorem claim_C4_counterexample :
    ((Generator.generate 1 (-1) 0 (RNG.mk (fun i => if i = 3 then 1 else 0) 0)).1.C).getD 0 0 <
      ((Generator.generate 1 (-1) 0 (RNG.mk (fun i => if i = 3 then 1 else 0) 0)).1.d).getD 0 0 := by
  decide

/-- Claim C4 (amended: the precondition is strengthened to `0 ≤ a ≤ b`):
for the base generator, after `generate(a, b)` completes, for every period
`t in 0..T-1`, `C[t] ≥ d[t]`. -/
theorem claim_C4_base_feasibility (T : Nat) (a b : Int) (r : RNG)
    (ha : 0 ≤ a) (hab : a ≤ b) (t : Nat) (ht : t < T) :
    ((Generator.generate T a b r).1.d).getD t 0 ≤
      ((Generator.generate T a b r).1.C).getD t 0 := by
  rw [Generator_generate_d, Generator_generate_C, repair_eq_foldl_baseSeq]
  have hdn : ∀ i, 0 ≤ ((Generator.sampleRaw T a b r).1.d).getD i 0 := by
    rw [Generator_sampleRaw_d]
    intro i
    exact sampleList_getD_nonneg a b T _ ha i
  have hCn : ∀ i, 0 ≤ ((Generator.sampleRaw T a b r).1.C0).getD i 0 := by
    rw [Generator_sampleRaw_C0]
    intro i
    exact sampleList_getD_nonneg a b T _ ha i
  have hClen : ((Generator.sampleRaw T a b r).1.C0).length = T := by
    rw [Generator_sampleRaw_C0]
    exact sampleList_length a b T _
  have hL : ∀ k ∈ baseSeq T, k < ((Generator.sampleRaw T a b r).1.C0).length := by
    intro k hk
    rw [hClen]
    exact (mem_baseSeq k T).1 hk
  rw [foldl_repairStep_getD _ _ _ hdn hCn hL t]
  have := hdn t
  have := hCn t
  split <;> rename_i hc
  · omega
  · rw [not_and_or] at hc
    rcases hc with hc | hc
    · exact absurd ((mem_baseSeq t T).2 ht) hc
    · omega

/-- Claim C4, witness instance. -/
theorem claim_C4_witness :
    (0 : Int) ≤ 1 ∧ (1 : Int) ≤ 6 ∧ 0 < 3 ∧
    ((Generator.generate 3 1 6 (RNG.mk (fun _ => 0) 0)).1.d).getD 0 0 ≤
      ((Generator.generate 3 1 6 (RNG.mk (fun _ => 0) 0)).1.C).getD 0 0 :=
  ⟨by decide, by decide, by decide,
    claim_C4_base_feasibility 3 1 6 (RNG.mk (fun _ => 0) 0) (by decide) (by decide) 0
      (by decide)⟩

/-- Claim C5, counterexample: on the run `generate(-3, 1)` with `T = 2`
shown here, the sampled demands and capacities are `d = [1, 1]` and
`C = [-3, 1]`; the double loop revisits period `0` and inflates it twice,
ending with `C = [-1, 1]`, while the single pass ends with `[-2, 1]`. -/
theorem claim_C5_counterexample :
    (Generator.generate 2 (-3) 1
        (RNG.mk (fun i => if i = 6 ∨ i = 7 ∨ i = 9 then 4 else 0) 0)).1.C ≠
      singlePassRepair [1, 1] [-3, 1] 2 ∧
    (Generator.sampleRaw 2 (-3) 1
        (RNG.mk (fun i => if i = 6 ∨ i = 7 ∨ i = 9 then 4 else 0) 0)).1.d = [1, 1] ∧
    (Generator.sampleRaw 2 (-3) 1
        (RNG.mk (fun i => if i = 6 ∨ i = 7 ∨ i = 9 then 4 else 0) 0)).1.C0 = [-3, 1] := by
  refine ⟨by decide, by decide, by decide⟩

/-- Claim C5 (amended: requires all entries of `d` and of the sampled `C` to
be nonnegative, which holds whenever `0 ≤ a`): the base repair double loop
produces the same final `C` as a single pass over `k in 0..T-1` applying
`if C[k] < d[k] then C[k] += d[k]` once per period, and each period's
capacity is inflated at most once relative to its own demand. -/
theorem claim_C5_single_pass (d C : List Int) (T : Nat)
    (hd : ∀ i, 0 ≤ d.getD i 0) (hC : ∀ i, 0 ≤ C.getD i 0) (hT : T ≤ C.length) :
    repair d C T = singlePassRepair d C T ∧
    (∀ k, (repair d C T).getD k 0 = C.getD k 0 ∨
      (repair d C T).getD k 0 = C.getD k 0 + d.getD k 0) := by
  have hflat := repair_eq_foldl_baseSeq d C T
  have hsingle : singlePassRepair d C T = (List.range T).foldl (repairStep d) C := rfl
  have hL1 : ∀ k ∈ baseSeq T, k < C.length := by
    intro k hk
    have := (mem_baseSeq k T).1 hk
    omega
  have hL2 : ∀ k ∈ List.range T, k < C.length := by
    intro k hk
    rw [List.mem_range] at hk
    omega
  have hgetD : ∀ j, (repair d C T).getD j 0 = (singlePassRepair d C T).getD j 0 := by
    intro j
    rw [hflat, foldl_repairStep_getD d _ C hd hC hL1 j, hsingle,
      foldl_repairStep_getD d _ C hd hC hL2 j]
    apply if_congr ?_ rfl rfl
    rw [mem_baseSeq, List.mem_range]
  have hlen : (repair d C T).length = (singlePassRepair d C T).length := by
    rw [hflat, foldl_repairStep_length, hsingle, foldl_repairStep_length]
  refine ⟨List.ext_getElem hlen ?_, ?_⟩
  · intro i h1 h2
    have hi := hgetD i
    rwa [List.getD_eq_getElem _ 0 h1, List.getD_eq_getElem _ 0 h2] at hi
  · intro k
    rw [hflat, foldl_repairStep_getD d _ C hd hC hL1 k]
    split
    · right
      rfl
    · left
      rfl

/-- Claim C5, witness instance. -/
theorem claim_C5_witness :
    (∀ i, 0 ≤ ([1, 1] : List Int).getD i 0) ∧ (∀ i, 0 ≤ ([2, 3] : List Int).getD i 0) ∧
    2 ≤ 2 ∧ repair [1, 1] [2, 3] 2 = singlePassRepair [1, 1] [2, 3] 2 :=
  ⟨getD_nonneg_of_forall_mem [1, 1] (by decide),
    getD_nonneg_of_forall_mem [2, 3] (by decide),
    by decide,
    (claim_C5_single_pass [1, 1] [2, 3] 2
      (getD_nonneg_of_forall_mem [1, 1] (by decide))
      (getD_nonneg_of_forall_mem [2, 3] (by decide)) (by decide)).1⟩

/-- Claim C6, counterexample: with `T = 1`, `a = -2`, `b = -1` the sampled
values are `d = [-1]`, `C = [-2]`; the repair triggers and adds the negative
demand, decreasing the capacity from `-2` to `-3`. -/
theorem claim_C6_counterexample :
    ((Generator.generate 1 (-2) (-1) (RNG.mk (fun i => if i = 3 then 1 else 0) 0)).1.C).getD 0 0 <
      ((Generator.sampleRaw 1 (-2) (-1)
        (RNG.mk (fun i => if i = 3 then 1 else 0) 0)).1.C0).getD 0 0 := by
  decide

/-- Claim C6 (amended: demands must be nonnegative, i.e. `0 ≤ a` for the base
generator and `0 ≤ dw_a` for the time-window generators): the repair never
decreases capacity — pointwise, the final `C` dominates the sampled `C`, and
each individual repair update is pointwise non-decreasing. -/
theorem claim_C6_monotone (T : Nat) (a b dw_a dw_b : Int) (r : RNG) (k : Nat) :
    (0 ≤ a →
      ((Generator.sampleRaw T a b r).1.C0).getD k 0 ≤
        ((Generator.generate T a b r).1.C).getD k 0) ∧
    (0 ≤ dw_a →
      ((GeneratorTW_CS.sampleRaw T a b dw_a dw_b r).1.C0).getD k 0 ≤
        ((GeneratorTW_CS.generate T a b dw_a dw_b r).1.C).getD k 0) ∧
    (0 ≤ dw_a →
      ((GeneratorTW_NCS.sampleRaw T a b dw_a dw_b r).1.C0).getD k 0 ≤
        ((GeneratorTW_NCS.generate T a b dw_a dw_b r).1.C).getD k 0) ∧
    (∀ (dl C : List Int) (j : Nat), (∀ i, 0 ≤ dl.getD i 0) →
      C.getD k 0 ≤ (repairStep dl C j).getD k 0) ∧
    (∀ (w : Nat × Nat → Int) (C : List Int) (q : Nat × Nat), (∀ y, 0 ≤ w y) →
      C.getD k 0 ≤ (repairInterval w C q).getD k 0) := by
  refine ⟨?_, ?_, ?_, ?_, ?_⟩
  · intro ha
    rw [Generator_generate_C, repair_eq_foldl_baseSeq]
    apply foldl_repairStep_getD_le
    rw [Generator_sampleRaw_d]
    intro i
    exact sampleList_getD_nonneg a b T _ ha i
  · intro hdwa
    rw [CS_generate_C, repairTW_eq_foldl]
    apply foldl_repairInterval_getD_le
    rw [CS_sampleRaw_dw]
    intro y
    exact sampleDW_nonneg dw_a dw_b hdwa _ _ y
  · intro hdwa
    rw [NCS_generate_C, repairTW_eq_foldl]
    apply foldl_repairInterval_getD_le
    intro y
    apply prune_nonneg
    rw [NCS_sampleRaw_dw]
    intro z
    exact sampleDW_nonneg dw_a dw_b hdwa _ _ z
  · intro dl C j hdl
    exact repairStep_getD_le dl C j k hdl
  · intro w C q hw
    exact repairInterval_getD_le w hw C q k

/-- Claim C6, witness instance. -/
theorem claim_C6_witness :
    (0 : Int) ≤ 1 ∧
    ((Generator.sampleRaw 1 1 1 (RNG.mk (fun _ => 0) 0)).1.C0).getD 0 0 ≤
      ((Generator.generate 1 1 1 (RNG.mk (fun _ => 0) 0)).1.C).getD 0 0 :=
  ⟨by decide, (claim_C6_monotone 1 1 1 0 0 (RNG.mk (fun _ => 0) 0) 0).1 (by decide)⟩

/-- Claim C1, counterexample: `generate` completes for any bound pair, and
with `a = b = -5`, `T = 1` the interval `[0, 0]` ends with capacity sum `-5`
below the window-demand sum `0`, so the interval-feasibility property fails
as stated (it has no nonnegativity precondition). -/
theorem claim_C1_counterexample :
    intervalSumC ((GeneratorTW_CS.generate 1 (-5) (-5) 0 0 (RNG.mk (fun _ => 0) 0)).1.C) 0 0 <
      sumWin ((GeneratorTW_CS.generate 1 (-5) (-5) 0 0 (RNG.mk (fun _ => 0) 0)).1.d_w) 0 0 := by
  decide

/-- Claim C1 (amended: bounds are additionally required nonnegative,
`0 ≤ a ≤ b` and `0 ≤ dw_a ≤ dw_b`): for the CS and NCS generators, after
`generate(a, b, dw_a, dw_b)` completes, for every `0 ≤ t1 ≤ t2 ≤ T-1`, the
sum of `C[k]` over `k in [t1, t2]` is at least the sum of `d_w[(k, l)]` over
all windows with `t1 ≤ k ≤ l ≤ t2`. -/
theorem claim_C1_interval_feasibility (T : Nat) (a b dw_a dw_b : Int) (r : RNG)
    (ha : 0 ≤ a) (hab : a ≤ b) (hdwa : 0 ≤ dw_a) (hdw : dw_a ≤ dw_b)
    (t1 t2 : Nat) (h12 : t1 ≤ t2) (h2T : t2 < T) :
    sumWin ((GeneratorTW_CS.generate T a b dw_a dw_b r).1.d_w) t1 t2 ≤
      intervalSumC ((GeneratorTW_CS.generate T a b dw_a dw_b r).1.C) t1 t2 ∧
    sumWin ((GeneratorTW_NCS.generate T a b dw_a dw_b r).1.d_w) t1 t2 ≤
      intervalSumC ((GeneratorTW_NCS.generate T a b dw_a dw_b r).1.C) t1 t2 := by
  constructor
  · rw [CS_generate_dw, CS_generate_C, repairTW_eq_foldl]
    have hw : ∀ y, 0 ≤ (GeneratorTW_CS.sampleRaw T a b dw_a dw_b r).1.dw y := by
      rw [CS_sampleRaw_dw]
      intro y
      exact sampleDW_nonneg dw_a dw_b hdwa _ _ y
    have hC : ∀ i, 0 ≤ ((GeneratorTW_CS.sampleRaw T a b dw_a dw_b r).1.C0).getD i 0 := by
      rw [CS_sampleRaw_C0]
      intro i
      exact sampleList_getD_nonneg a b T _ ha i
    have hlen : ((GeneratorTW_CS.sampleRaw T a b dw_a dw_b r).1.C0).length = T := by
      rw [CS_sampleRaw_C0]
      exact sampleList_length a b T _
    have hPS : ∀ p ∈ intervalPairs T, p.1 ≤ p.2 ∧
        p.2 < ((GeneratorTW_CS.sampleRaw T a b dw_a dw_b r).1.C0).length := by
      intro p hp
      have := (mem_intervalPairs p.1 p.2 T).1 hp
      rw [hlen]
      exact this
    exact foldl_repairInterval_feasible _ hw (intervalPairs T) _ hC hPS (t1, t2)
      ((mem_intervalPairs t1 t2 T).2 ⟨h12, h2T⟩)
  · rw [NCS_generate_dw, NCS_generate_C, repairTW_eq_foldl]
    have hw : ∀ y, 0 ≤ prune (windowKeys T)
        (GeneratorTW_NCS.sampleRaw T a b dw_a dw_b r).1.dw y := by
      intro y
      apply prune_nonneg
      rw [NCS_sampleRaw_dw]
      intro z
      exact sampleDW_nonneg dw_a dw_b hdwa _ _ z
    have hC : ∀ i, 0 ≤ ((GeneratorTW_NCS.sampleRaw T a b dw_a dw_b r).1.C0).getD i 0 := by
      rw [NCS_sampleRaw_C0]
      intro i
      exact sampleList_getD_nonneg a b T _ ha i
    have hlen : ((GeneratorTW_NCS.sampleRaw T a b dw_a dw_b r).1.C0).length = T := by
      rw [NCS_sampleRaw_C0]
      exact sampleList_length a b T _
    have hPS : ∀ p ∈ intervalPairs T, p.1 ≤ p.2 ∧
        p.2 < ((GeneratorTW_NCS.sampleRaw T a b dw_a dw_b r).1.C0).length := by
      intro p hp
      have := (mem_intervalPairs p.1 p.2 T).1 hp
      rw [hlen]
      exact this
    exact foldl_repairInterval_feasible _ hw (intervalPairs T) _ hC hPS (t1, t2)
      ((mem_intervalPairs t1 t2 T).2 ⟨h12, h2T⟩)

/-- Claim C1, witness instance. -/
theorem claim_C1_witness :
    (0 : Int) ≤ 1 ∧ (1 : Int) ≤ 6 ∧ (0 : Int) ≤ 0 ∧ (0 : Int) ≤ 4 ∧
    (sumWin ((GeneratorTW_CS.generate 2 1 6 0 4 (RNG.mk (fun _ => 0) 0)).1.d_w) 0 1 ≤
        intervalSumC ((GeneratorTW_CS.generate 2 1 6 0 4 (RNG.mk (fun _ => 0) 0)).1.C) 0 1 ∧
      sumWin ((GeneratorTW_NCS.generate 2 1 6 0 4 (RNG.mk (fun _ => 0) 0)).1.d_w) 0 1 ≤
        intervalSumC ((GeneratorTW_NCS.generate 2 1 6 0 4 (RNG.mk (fun _ => 0) 0)).1.C) 0 1) :=
  ⟨by decide, by decide, by decide, by decide,
    claim_C1_interval_feasibility 2 1 6 0 4 (RNG.mk (fun _ => 0) 0)
      (by decide) (by decide) (by decide) (by decide) 0 1 (by decide) (by decide)⟩

/-- Claim C2: for the NCS generator, after `generate` completes, any two
distinct windows that both still carry nonzero demand satisfy the non-strict
componentwise ordering test; no surviving pair is in strict containment. -/
theorem claim_C2_no_strict_containment (T : Nat) (a b dw_a dw_b : Int) (r : RNG)
    (p q : Nat × Nat) (hp : p ∈ windowKeys T) (hq : q ∈ windowKeys T) (hne : p ≠ q)
    (hp0 : (GeneratorTW_NCS.generate T a b dw_a dw_b r).1.d_w p ≠ 0)
    (hq0 : (GeneratorTW_NCS.generate T a b dw_a dw_b r).1.d_w q ≠ 0) :
    acceptable p q := by
  by_contra hnacc
  rw [NCS_generate_dw] at hp0 hq0
  rw [prune_char T _ p hp] at hp0
  rw [prune_char T _ q hq] at hq0
  by_cases hexp : ∃ Y ∈ windowKeys T,
      (GeneratorTW_NCS.sampleRaw T a b dw_a dw_b r).1.dw Y ≠ 0 ∧ strictlyInside p Y
  · rw [if_pos hexp] at hp0
    exact hp0 rfl
  · rw [if_neg hexp] at hp0
    by_cases hexq : ∃ Y ∈ windowKeys T,
        (GeneratorTW_NCS.sampleRaw T a b dw_a dw_b r).1.dw Y ≠ 0 ∧ strictlyInside q Y
    · rw [if_pos hexq] at hq0
      exact hq0 rfl
    · rw [if_neg hexq] at hq0
      rcases (not_acceptable_iff p q).1 hnacc with hin | hin
      · exact hexq ⟨p, hp, hp0, hin⟩
      · exact hexp ⟨q, hq, hq0, hin⟩

/-- Claim C2, witness instance. -/
theorem claim_C2_witness :
    ((0, 1) : Nat × Nat) ∈ windowKeys 3 ∧ ((1, 2) : Nat × Nat) ∈ windowKeys 3 ∧
    ((0, 1) : Nat × Nat) ≠ (1, 2) ∧
    (GeneratorTW_NCS.generate 3 1 1 1 1 (RNG.mk (fun _ => 0) 0)).1.d_w (0, 1) ≠ 0 ∧
    (GeneratorTW_NCS.generate 3 1 1 1 1 (RNG.mk (fun _ => 0) 0)).1.d_w (1, 2) ≠ 0 ∧
    acceptable (0, 1) (1, 2) :=
  ⟨by decide, by decide, by decide, by decide, by decide,
    claim_C2_no_strict_containment 3 1 1 1 1 (RNG.mk (fun _ => 0) 0) (0, 1) (1, 2)
      (by decide) (by decide) (by decide) (by decide) (by decide)⟩

/-- Claim C3: in both time-window variants, after `generate` completes,
`d[t]` equals the sum of `d_w[(t1, t)]` over `0 ≤ t1 ≤ t`, computed from the
dataset's final (post-pruning) window demands. -/
theorem claim_C3_aggregation (T : Nat) (a b dw_a dw_b : Int) (r : RNG)
    (t : Nat) (ht : t < T) :
    ((GeneratorTW_CS.generate T a b dw_a dw_b r).1.d).getD t 0 =
      ((List.range (t + 1)).map
        (fun t1 => (GeneratorTW_CS.generate T a b dw_a dw_b r).1.d_w (t1, t))).sum ∧
    ((GeneratorTW_NCS.generate T a b dw_a dw_b r).1.d).getD t 0 =
      ((List.range (t + 1)).map
        (fun t1 => (GeneratorTW_NCS.generate T a b dw_a dw_b r).1.d_w (t1, t))).sum := by
  constructor
  · exact aggregate_getD _ T t ht
  · exact aggregate_getD _ T t ht

/-- Claim C3, witness instance. -/
theorem claim_C3_witness :
    1 < 2 ∧
    ((GeneratorTW_CS.generate 2 1 6 0 4 (RNG.mk (fun _ => 0) 0)).1.d).getD 1 0 =
      ((List.range 2).map
        (fun t1 => (GeneratorTW_CS.generate 2 1 6 0 4 (RNG.mk (fun _ => 0) 0)).1.d_w (t1, 1))).sum :=
  ⟨by decide, (claim_C3_aggregation 2 1 6 0 4 (RNG.mk (fun _ => 0) 0) 1 (by decide)).1⟩

/-- Claim C7: the NCS mutate-while-scanning pruning over the dict keys in
insertion (lexicographic) order computes exactly the two-phase algorithm:
a window is zeroed iff its sampled demand was zero or some window with
nonzero sampled demand strictly contains it; all other windows keep their
sampled value.  Stated for every initial demand function, hence in
particular for the one sampled by `generate`. -/
theorem claim_C7_prune_equiv (T : Nat) (a b dw_a dw_b : Int) (r : RNG)
    (w0 : Nat × Nat → Int) (x : Nat × Nat) (hx : x ∈ windowKeys T) :
    prune (windowKeys T) w0 x = twoPhasePrune (windowKeys T) w0 x ∧
    (GeneratorTW_NCS.generate T a b dw_a dw_b r).1.d_w x =
      twoPhasePrune (windowKeys T) ((GeneratorTW_NCS.sampleRaw T a b dw_a dw_b r).1.dw) x := by
  constructor
  · rw [prune_char T w0 x hx]
    rfl
  · rw [NCS_generate_dw, prune_char T _ x hx]
    rfl

/-- Claim C7, witness instance. -/
theorem claim_C7_witness :
    ((0, 1) : Nat × Nat) ∈ windowKeys 3 ∧
    prune (windowKeys 3) (fun q => if q.1 = q.2 then 0 else 1) (0, 1) =
      twoPhasePrune (windowKeys 3) (fun q => if q.1 = q.2 then 0 else 1) (0, 1) ∧
    (GeneratorTW_NCS.generate 3 1 1 1 1 (RNG.mk (fun _ => 0) 0)).1.d_w (0, 1) =
      twoPhasePrune (windowKeys 3)
        ((GeneratorTW_NCS.sampleRaw 3 1 1 1 1 (RNG.mk (fun _ => 0) 0)).1.dw) (0, 1) :=
  ⟨by decide,
    (claim_C7_prune_equiv 3 1 1 1 1 (RNG.mk (fun _ => 0) 0)
      (fun q => if q.1 = q.2 then 0 else 1) (0, 1) (by decide)).1,
    (claim_C7_prune_equiv 3 1 1 1 1 (RNG.mk (fun _ => 0) 0)
      (fun q => if q.1 = q.2 then 0 else 1) (0, 1) (by decide)).2⟩

/-- Claim C8: after any `generate` call with `a ≤ b` and `dw_a ≤ dw_b`, all
of `h, p, s`, the base `d`, and the pre-repair `C` lie in `[a, b]`; sampled
off-diagonal window demands lie in `[dw_a, dw_b]`; diagonal windows carry
demand `0`; and the key set of `d_w` is exactly the pairs `(i, j)` with
`0 ≤ i ≤ j ≤ T-1`, each appearing once. -/
theorem claim_C8_bounds (T : Nat) (a b dw_a dw_b : Int) (hab : a ≤ b) (hdw : dw_a ≤ dw_b) :
    (∀ (r : RNG) (t : Nat), t < T →
      (a ≤ ((Generator.generate T a b r).1.h).getD t 0 ∧
        ((Generator.generate T a b r).1.h).getD t 0 ≤ b) ∧
      (a ≤ ((Generator.generate T a b r).1.p).getD t 0 ∧
        ((Generator.generate T a b r).1.p).getD t 0 ≤ b) ∧
      (a ≤ ((Generator.generate T a b r).1.s).getD t 0 ∧
        ((Generator.generate T a b r).1.s).getD t 0 ≤ b) ∧
      (a ≤ ((Generator.generate T a b r).1.d).getD t 0 ∧
        ((Generator.generate T a b r).1.d).getD t 0 ≤ b) ∧
      (a ≤ ((Generator.sampleRaw T a b r).1.C0).getD t 0 ∧
        ((Generator.sampleRaw T a b r).1.C0).getD t 0 ≤ b)) ∧
    (∀ (r : RNG) (t : Nat), t < T →
      (a ≤ ((GeneratorTW_CS.generate T a b dw_a dw_b r).1.h).getD t 0 ∧
        ((GeneratorTW_CS.generate T a b dw_a dw_b r).1.h).getD t 0 ≤ b) ∧
      (a ≤ ((GeneratorTW_CS.generate T a b dw_a dw_b r).1.p).getD t 0 ∧
        ((GeneratorTW_CS.generate T a b dw_a dw_b r).1.p).getD t 0 ≤ b) ∧
      (a ≤ ((GeneratorTW_CS.generate T a b dw_a dw_b r).1.s).getD t 0 ∧
        ((GeneratorTW_CS.generate T a b dw_a dw_b r).1.s).getD t 0 ≤ b) ∧
      (a ≤ ((GeneratorTW_CS.sampleRaw T a b dw_a dw_b r).1.C0).getD t 0 ∧
        ((GeneratorTW_CS.sampleRaw T a b dw_a dw_b r).1.C0).getD t 0 ≤ b) ∧
      (a ≤ ((GeneratorTW_NCS.generate T a b dw_a dw_b r).1.h).getD t 0 ∧
        ((GeneratorTW_NCS.generate T a b dw_a dw_b r).1.h).getD t 0 ≤ b) ∧
      (a ≤ ((GeneratorTW_NCS.sampleRaw T a b dw_a dw_b r).1.C0).getD t 0 ∧
        ((GeneratorTW_NCS.sampleRaw T a b dw_a dw_b r).1.C0).getD t 0 ≤ b)) ∧
    (∀ (r : RNG) (q : Nat × Nat), q ∈ windowKeys T → q.1 ≠ q.2 →
      (dw_a ≤ (GeneratorTW_CS.sampleRaw T a b dw_a dw_b r).1.dw q ∧
        (GeneratorTW_CS.sampleRaw T a b dw_a dw_b r).1.dw q ≤ dw_b) ∧
      (dw_a ≤ (GeneratorTW_NCS.sampleRaw T a b dw_a dw_b r).1.dw q ∧
        (GeneratorTW_NCS.sampleRaw T a b dw_a dw_b r).1.dw q ≤ dw_b)) ∧
    (∀ (r : RNG) (i : Nat),
      (GeneratorTW_CS.generate T a b dw_a dw_b r).1.d_w (i, i) = 0 ∧
      (GeneratorTW_NCS.generate T a b dw_a dw_b r).1.d_w (i, i) = 0) ∧
    (∀ i j : Nat, ((i, j) ∈ windowKeys T ↔ i ≤ j ∧ j < T)) ∧
    (windowKeys T).Nodup := by
  refine ⟨?_, ?_, ?_, ?_, fun i j => mem_windowKeys i j T, windowKeys_nodup T⟩
  · intro r t ht
    refine ⟨?_, ?_, ?_, ?_, ?_⟩
    · rw [Generator_generate_h]
      exact sampleList_getD_bounds a b T _ hab t ht
    · rw [Generator_generate_p]
      exact sampleList_getD_bounds a b T _ hab t ht
    · rw [Generator_generate_s]
      exact sampleList_getD_bounds a b T _ hab t ht
    · rw [Generator_generate_d, Generator_sampleRaw_d]
      exact sampleList_getD_bounds a b T _ hab t ht
    · rw [Generator_sampleRaw_C0]
      exact sampleList_getD_bounds a b T _ hab t ht
  · intro r t ht
    refine ⟨?_, ?_, ?_, ?_, ?_, ?_⟩
    · rw [CS_generate_h]
      exact sampleList_getD_bounds a b T _ hab t ht
    · rw [CS_generate_p]
      exact sampleList_getD_bounds a b T _ hab t ht
    · rw [CS_generate_s]
      exact sampleList_getD_bounds a b T _ hab t ht
    · rw [CS_sampleRaw_C0]
      exact sampleList_getD_bounds a b T _ hab t ht
    · rw [NCS_generate_h]
      exact sampleList_getD_bounds a b T _ hab t ht
    · rw [NCS_sampleRaw_C0]
      exact sampleList_getD_bounds a b T _ hab t ht
  · intro r q hq hqne
    constructor
    · rw [CS_sampleRaw_dw]
      refine ⟨(sampleDW_mem_ne dw_a dw_b (windowKeys T) _ q hq hqne).1,
        (sampleDW_mem_ne dw_a dw_b (windowKeys T) _ q hq hqne).2 hdw⟩
    · rw [NCS_sampleRaw_dw]
      refine ⟨(sampleDW_mem_ne dw_a dw_b (windowKeys T) _ q hq hqne).1,
        (sampleDW_mem_ne dw_a dw_b (windowKeys T) _ q hq hqne).2 hdw⟩
  · intro r i
    constructor
    · rw [CS_generate_dw, CS_sampleRaw_dw]
      exact sampleDW_diag dw_a dw_b (windowKeys T) _ i
    · rw [NCS_generate_dw]
      rcases prune_zero_or_orig (windowKeys T)
          ((GeneratorTW_NCS.sampleRaw T a b dw_a dw_b r).1.dw) (i, i) with h | h
      · rw [h, NCS_sampleRaw_dw]
        exact sampleDW_diag dw_a dw_b (windowKeys T) _ i
      · exact h

/-- Claim C8, witness instance. -/
theorem claim_C8_witness :
    (1 : Int) ≤ 6 ∧ (0 : Int) ≤ 4 ∧ (windowKeys 2).Nodup ∧
    (∀ i j : Nat, ((i, j) ∈ windowKeys 2 ↔ i ≤ j ∧ j < 2)) :=
  ⟨by decide, by decide,
    (claim_C8_bounds 2 1 6 0 4 (by decide) (by decide)).2.2.2.2.2,
    (claim_C8_bounds 2 1 6 0 4 (by decide) (by decide)).2.2.2.2.1⟩

/-- Claim C9: seeding with a fixed truthy value `v` resets the shared random
source to a state depending only on `v`, so two runs that each call
`seed(v)` and then `generate` with the same parameters produce identical
datasets (including `d_w` where present), whatever the prior states were. -/
theorem claim_C9_determinism (f : Int → Nat → Nat) (v : Int) (hv : v ≠ 0)
    (r1 r2 : RNG) (T : Nat) (a b dw_a dw_b : Int) :
    (Generator.generate T a b (Generator.seed f (some v) r1)).1 =
      (Generator.generate T a b (Generator.seed f (some v) r2)).1 ∧
    (GeneratorTW_CS.generate T a b dw_a dw_b (GeneratorTW_CS.seed f (some v) r1)).1 =
      (GeneratorTW_CS.generate T a b dw_a dw_b (GeneratorTW_CS.seed f (some v) r2)).1 ∧
    (GeneratorTW_NCS.generate T a b dw_a dw_b (GeneratorTW_NCS.seed f (some v) r1)).1 =
      (GeneratorTW_NCS.generate T a b dw_a dw_b (GeneratorTW_NCS.seed f (some v) r2)).1 := by
  have h1 : Generator.seed f (some v) r1 = Generator.seed f (some v) r2 := by
    show (if v = 0 then r1 else RNG.mk (f v) 0) = (if v = 0 then r2 else RNG.mk (f v) 0)
    rw [if_neg hv, if_neg hv]
  have h2 : GeneratorTW_CS.seed f (some v) r1 = GeneratorTW_CS.seed f (some v) r2 := by
    show (if v = 0 then r1 else RNG.mk (f v) 0) = (if v = 0 then r2 else RNG.mk (f v) 0)
    rw [if_neg hv, if_neg hv]
  have h3 : GeneratorTW_NCS.seed f (some v) r1 = GeneratorTW_NCS.seed f (some v) r2 := by
    show (if v = 0 then r1 else RNG.mk (f v) 0) = (if v = 0 then r2 else RNG.mk (f v) 0)
    rw [if_neg hv, if_neg hv]
  refine ⟨by rw [h1], by rw [h2], by rw [h3]⟩

/-- Claim C9, witness instance. -/
theorem claim_C9_witness :
    (1 : Int) ≠ 0 ∧
    (Generator.generate 2 1 6 (Generator.seed (fun _ _ => 0) (some 1)
        (RNG.mk (fun _ => 1) 5))).1 =
      (Generator.generate 2 1 6 (Generator.seed (fun _ _ => 0) (some 1)
        (RNG.mk (fun _ => 2) 9))).1 :=
  ⟨by decide,
    (claim_C9_determinism (fun _ _ => 0) 1 (by decide) (RNG.mk (fun _ => 1) 5)
      (RNG.mk (fun _ => 2) 9) 2 1 6 0 4).1⟩

/-- Claim C10: calling `seed(None)` or `seed(0)` on any of the three
generators leaves the shared random source's state unchanged, so the stream
of subsequently drawn values is identical to not making the call. -/
theorem claim_C10_seed_noop (f : Int → Nat → Nat) (r : RNG) :
    Generator.seed f none r = r ∧ Generator.seed f (some 0) r = r ∧
    GeneratorTW_CS.seed f none r = r ∧ GeneratorTW_CS.seed f (some 0) r = r ∧
    GeneratorTW_NCS.seed f none r = r ∧ GeneratorTW_NCS.seed f (some 0) r = r := by
  refine ⟨rfl, ?_, rfl, ?_, rfl, ?_⟩ <;>
    · show (if (0 : Int) = 0 then r else RNG.mk (f 0) 0) = r
      rw [if_pos rfl]
